import Mathlib

/-!
Shallow embedding of `src/tactic/bv/bv_bounds_tactic.cpp` (the
`bv_bounds_simplifier` contextual bounds simplification pass) and proofs
about it.

Bit-vector values are modelled as mathematical integers (`Int`), mirroring
the C++ `rational` fields which always hold integers in `[0, 2^sz - 1]`
here; widths are natural numbers.  Every interval carries its width, as in
the source.  The scope stack `m_scopes` is modelled as a list of fact
tables whose head is the innermost table (`m_scopes.back()` /
`m_bound`).
-/

namespace BvBounds

/-- `uMaxInt(sz) = 2^sz - 1`, as in the C++ helper. -/
def uMaxInt (sz : Nat) : Int := 2 ^ sz - 1

theorem uMaxInt_nonneg (sz : Nat) : 0 ≤ uMaxInt sz := by
  have h : (0 : Int) < 2 ^ sz := pow_pos (by norm_num) sz
  unfold uMaxInt
  omega

/-- The `interval` struct: `l ≤ h` denotes `[l, h]`; `l > h` denotes the
wrapped set `[0, h] ∪ [l, uMaxInt sz]`. -/
structure interval where
  l : Int
  h : Int
  sz : Nat
deriving DecidableEq

namespace interval

/-- `interval::invariant`: both endpoints lie in `[0, uMaxInt sz]`. -/
def invariant (a : interval) : Prop :=
  0 ≤ a.l ∧ 0 ≤ a.h ∧ a.l ≤ uMaxInt a.sz ∧ a.h ≤ uMaxInt a.sz

instance (a : interval) : Decidable a.invariant :=
  inferInstanceAs (Decidable (0 ≤ a.l ∧ 0 ≤ a.h ∧ a.l ≤ uMaxInt a.sz ∧ a.h ≤ uMaxInt a.sz))

/-- `interval::is_full`. -/
def is_full (a : interval) : Prop := a.l = 0 ∧ a.h = uMaxInt a.sz

instance (a : interval) : Decidable a.is_full :=
  inferInstanceAs (Decidable (a.l = 0 ∧ a.h = uMaxInt a.sz))

/-- `interval::is_wrapped`: `l > h`. -/
def is_wrapped (a : interval) : Prop := a.h < a.l

instance (a : interval) : Decidable a.is_wrapped :=
  inferInstanceAs (Decidable (a.h < a.l))

/-- `interval::implies`. -/
def implies (a b : interval) : Bool :=
  if b.is_full then true
  else if a.is_full then false
  else if a.is_wrapped then
    -- l >= b.l >= b.h >= h
    decide b.is_wrapped && decide (a.h ≤ b.h) && decide (b.l ≤ a.l)
  else if b.is_wrapped then
    decide (a.h ≤ b.h) || decide (b.l ≤ a.l)
  else
    decide (b.l ≤ a.l) && decide (a.h ≤ b.h)

/-- `interval::intersect`; `none` models the C++ `return false`
("intersection is unsat").  The C++ branch for `this` wrapped and `b`
contiguous performs `return b.intersect(*this, result)`; at that point the
top `is_full`/equality tests of the recursive call are already known to be
false, so the call lands in the "`this` contiguous, `b` wrapped" branch
with the operands swapped, which is inlined here verbatim (with the roles
of `a` and `b` exchanged) to keep the definition structurally recursive-free. -/
def intersect (a b : interval) : Option interval :=
  if a.is_full ∨ (a.l = b.l ∧ a.h = b.h) then some b
  else if b.is_full then some a
  else if a.is_wrapped then
    if b.is_wrapped then
      if b.l < a.h then some b
      else if a.l < b.h then some a
      else some ⟨max a.l b.l, min a.h b.h, a.sz⟩
    else
      -- inlined `b.intersect(*this, result)`
      if b.h < a.l ∧ a.h < b.l then none
      else if a.l ≤ b.h ∧ b.l ≤ a.h then some a
      else if a.l ≤ b.h then some ⟨a.l, b.h, b.sz⟩
      else some ⟨b.l, min b.h a.h, b.sz⟩
  else if b.is_wrapped then
    -- ... b.h ... l ... h ... b.l ..
    if a.h < b.l ∧ b.h < a.l then none
    -- ... l ... b.l ... h ...
    else if b.l ≤ a.h ∧ a.l ≤ b.h then some b
    else if b.l ≤ a.h then some ⟨b.l, a.h, a.sz⟩
    -- ... l .. b.h .. h .. b.l ...
    else some ⟨a.l, min a.h b.h, a.sz⟩
  else
    -- 0 .. l.. l' ... h ... h'
    some ⟨max a.l b.l, min a.h b.h, a.sz⟩

/-- `interval::negate`; `none` models the C++ `return false`
("negation is empty"). -/
def negate (a : interval) : Option interval :=
  if a.is_full then none
  else if a.l = 0 then some ⟨a.h + 1, uMaxInt a.sz, a.sz⟩
  else if a.h = uMaxInt a.sz then some ⟨0, a.l - 1, a.sz⟩
  else some ⟨a.h + 1, a.l - 1, a.sz⟩

/-- The set of residues an interval denotes: `{l..h}` when `l ≤ h`, and
`{0..h} ∪ {l..uMaxInt sz}` when `l > h`. -/
def memI (a : interval) (x : Int) : Prop :=
  if a.l ≤ a.h then a.l ≤ x ∧ x ≤ a.h
  else (0 ≤ x ∧ x ≤ a.h) ∨ (a.l ≤ x ∧ x ≤ uMaxInt a.sz)

instance (a : interval) (x : Int) : Decidable (memI a x) := by
  unfold memI
  exact inferInstance

end interval

/-- The fragment of the term language the simplifier inspects: bit-vector
variables and numerals (each carrying a width), the three recognized
comparison shapes, and the boolean constants built by `simplify`. -/
inductive Term where
  | var : Nat → Nat → Term
  | num : Int → Nat → Term
  | ule : Term → Term → Term
  | sle : Term → Term → Term
  | eq : Term → Term → Term
  | tt : Term
  | ff : Term
deriving DecidableEq

namespace Term

/-- `bv_util::is_numeral`: a numeral together with its value and width. -/
def isNum : Term → Option (Int × Nat)
  | num n sz => some (n, sz)
  | _ => none

/-- `m.get_sort` followed by `bv_util::get_bv_size` for the terms we track. -/
def sortSize : Term → Nat
  | var _ sz => sz
  | num _ sz => sz
  | _ => 0

/-- All numerals occurring in a term are in range for their width, and
widths are positive (bit-vector sorts have at least one bit). -/
def litOk : Term → Bool
  | num n sz => decide (0 ≤ n) && decide (n ≤ uMaxInt sz) && decide (1 ≤ sz)
  | ule a b => litOk a && litOk b
  | sle a b => litOk a && litOk b
  | eq a b => litOk a && litOk b
  | _ => true

end Term

open interval Term

/-- `bv_bounds_simplifier::is_bound`: recognize `C ≤ᵤ v`, `v ≤ᵤ C`,
`C ≤ₛ v`, `v ≤ₛ C`, `C = v`, `v = C` and produce the tracked subterm
together with the interval the comparison asserts. -/
def is_bound (e : Term) : Option (Term × interval) :=
  match e with
  | Term.ule lhs rhs =>
    match isNum lhs with
    | some (n, sz) => some (rhs, ⟨n, uMaxInt sz, sz⟩)      -- C ule x <=> x uge C
    | none =>
      match isNum rhs with
      | some (n, sz) => some (lhs, ⟨0, n, sz⟩)             -- x ule C
      | none => none
  | Term.sle lhs rhs =>
    match isNum lhs with
    | some (n, sz) => some (rhs, ⟨n, 2 ^ (sz - 1) - 1, sz⟩)  -- C sle x <=> x sge C
    | none =>
      match isNum rhs with
      | some (n, sz) => some (lhs, ⟨2 ^ (sz - 1), n, sz⟩)    -- x sle C
      | none => none
  | Term.eq lhs rhs =>
    match isNum lhs with
    | some (n, sz) => some (rhs, ⟨n, n, sz⟩)
    | none =>
      match isNum rhs with
      | some (n, sz) => some (lhs, ⟨n, n, sz⟩)
      | none => none
  | _ => none

/-- One fact table: `obj_map<expr, interval>`, keys unique by construction. -/
abbrev Table := List (Term × interval)

/-- `obj_map::find`. -/
def findT (tbl : Table) (k : Term) : Option interval :=
  (List.find? (fun p => decide (p.1 = k)) tbl).map Prod.snd

/-- In-place overwrite of the entry for `k` (the C++ code mutates the
stored interval through a reference). -/
def updateT (tbl : Table) (k : Term) (v : interval) : Table :=
  tbl.map (fun p => if p.1 = k then (k, v) else p)

/-- The simplifier state: `m_scopes`, head = innermost table (`m_bound`). -/
structure State where
  scopes : List Table

/-- `m_bound`, the table at the top of the scope stack. -/
def top (s : State) : Table := s.scopes.headD []

/-- Replace the table at the top of the scope stack. -/
def setTop (s : State) (tbl : Table) : State := ⟨tbl :: s.scopes.tail⟩

/-- `bv_bounds_simplifier::push`: duplicate the innermost table. -/
def push (s : State) : State := ⟨top s :: s.scopes⟩

/-- `bv_bounds_simplifier::pop(num_scopes)`: `m_scopes.shrink(size - n)`. -/
def pop (s : State) (n : Nat) : State := ⟨s.scopes.drop n⟩

/-- `bv_bounds_simplifier::scope_level`: `m_scopes.size() - 1`. -/
def scope_level (s : State) : Nat := s.scopes.length - 1

/-- The constructor state: one empty table. -/
def initState : State := ⟨[[]]⟩

/-- `bv_bounds_simplifier::add_bound`.  Note the `push()` at the start, as
in the source.  When the key is absent, `insert_if_not_there2` stores `b`
and the subsequent `r.intersect(b, r)` is `intersect b b = some b`, leaving
`b` stored and returning true; this is inlined.  The `Bool` is the value
the caller wraps in `VERIFY` (false = assertion failure). -/
def add_bound (s : State) (t : Term) (b : interval) : Bool × State :=
  let s1 := push s
  match findT (top s1) t with
  | none => (true, setTop s1 ((t, b) :: top s1))
  | some r =>
    match intersect r b with
    | none => (false, s1)
    | some r2 => (true, setTop s1 (updateT (top s1) t r2))

/-- `bv_bounds_simplifier::assert_expr`.  The `Bool` records whether the
`VERIFY` assertions succeeded (false = assertion failure on a
contradictory bound or on negating a full interval). -/
def assert_expr (s : State) (t : Term) (sign : Bool) : Bool × State :=
  match is_bound t with
  | some (t1, b) =>
    if sign then
      match negate b with
      | none => (false, s)
      | some b2 => add_bound s t1 b2
    else add_bound s t1 b
  | none => (true, s)

/-- `bv_bounds_simplifier::simplify`.  Returns the rewritten term (if any)
together with the resulting member state; the method reads but never
writes `m_scopes`/`m_bound`, so every branch returns `s` unchanged. -/
def simplify (s : State) (t : Term) : Option Term × State :=
  match is_bound t with
  | some (t1, b) =>
    match findT (top s) t1 with
    | some ctx =>
      match intersect b ctx with
      | none => (some Term.ff, s)
      | some intr =>
        if intr.l = intr.h then
          (some (Term.eq t1 (Term.num intr.l (sortSize t1))), s)
        else if implies ctx b then (some Term.tt, s)
        else (none, s)
    | none => (none, s)
  | none => (none, s)

/-- Width-8 variable used by the end-to-end scenarios. -/
def x8 : Term := Term.var 0 8

/-- Scenario C state: hypothesis `x = 5` (width 8) recorded positively. -/
def stC : State := (assert_expr initState (Term.eq x8 (Term.num 5 8)) false).2

/-- Scenario D state: hypothesis `x ≤ᵤ 5` recorded positively, then
hypothesis `x ≤ᵤ 2` recorded negatively. -/
def stD : State :=
  (assert_expr (assert_expr initState (Term.ule x8 (Term.num 5 8)) false).2
    (Term.ule x8 (Term.num 2 8)) true).2

/-- Width-4 variable used by the contradiction scenario. -/
def x4 : Term := Term.var 0 4

/-- State with `x = 5` (width 4) recorded. -/
def st45 : State := (assert_expr initState (Term.eq x4 (Term.num 5 4)) false).2

/-- State (width 3) with the bound `[0,3]` recorded for a variable. -/
def stB3 : State := (add_bound initState (Term.var 0 3) ⟨0, 3, 3⟩).2

/-- Number of scope levels `assert_expr` pushes internally: one whenever a
bound is recognized and (under negative polarity) its negation is
non-empty, zero otherwise. -/
def assertPushCount (t : Term) (sgn : Bool) : Nat :=
  match is_bound t with
  | none => 0
  | some (_, b) =>
    if sgn then
      match negate b with
      | none => 0
      | some _ => 1
    else 1

/-- Claim C1 (counterexample): with the width-8 hypothesis `x = 5`
recorded, `simplify` does not rewrite `x ≤ᵤ 5` to the boolean-true term
and `x ≤ᵤ 4` to the boolean-false term, contrary to the claim. -/
theorem scenarioC_claim_false :
    ¬ ((simplify stC (Term.ule x8 (Term.num 5 8))).1 = some Term.tt ∧
       (simplify stC (Term.ule x8 (Term.num 4 8))).1 = some Term.ff) := by
  decide

/-- Claim C1 (amended): with the width-8 hypothesis `x = 5` recorded (bound
`[5,5]`), `simplify (x ≤ᵤ 5)` produces the equality term `x = 5` (the
intersection `[0,5] ∩ [5,5]` is the single point 5, and the single-point
rewrite precedes the provably-true rewrite), and `simplify (x ≤ᵤ 4)`
produces no simplification (`intersect` returns the crossed interval
`[5,4]` instead of reporting the intersection empty, so the boolean-false
rewrite is not reached). -/
theorem scenarioC_actual :
    findT (top stC) x8 = some ⟨5, 5, 8⟩ ∧
    (simplify stC (Term.ule x8 (Term.num 5 8))).1 = some (Term.eq x8 (Term.num 5 8)) ∧
    (simplify stC (Term.ule x8 (Term.num 4 8))).1 = none := by
  decide

/-- Claim C2 (code bug): for the contiguous disjoint intervals `[0,3]` and
`[5,7]` at width 3, `intersect` does not report an empty intersection; it
returns the crossed (wrapped) interval `[5,3]` — contradicting its own
doc comment "return false if intersection is unsat" — and `add_bound`
then stores that crossed interval as the current bound. -/
theorem intersect_contiguous_disjoint_bug :
    intersect ⟨0, 3, 3⟩ ⟨5, 7, 3⟩ = some ⟨5, 3, 3⟩ ∧
    (⟨5, 3, 3⟩ : interval).is_wrapped ∧
    (add_bound stB3 (Term.var 0 3) ⟨5, 7, 3⟩).1 = true ∧
    findT (top (add_bound stB3 (Term.var 0 3) ⟨5, 7, 3⟩).2) (Term.var 0 3)
      = some ⟨5, 3, 3⟩ := by
  decide

/-- Claim C3 (counterexample): with `x ≤ᵤ 5` then `¬(x ≤ᵤ 2)` recorded at
width 8 (stored bound `[3,5]`), `simplify` does not leave `x = 4`
unsimplified, and does not rewrite `x ≤ᵤ 2` to the boolean-false term,
contrary to the claim. -/
theorem scenarioD_claim_false :
    ¬ ((simplify stD (Term.eq x8 (Term.num 4 8))).1 = none ∧
       (simplify stD (Term.ule x8 (Term.num 2 8))).1 = some Term.ff) := by
  decide

/-- Claim C3 (amended): with `x ≤ᵤ 5` then `¬(x ≤ᵤ 2)` recorded at width 8
the stored bound for `x` is `[3,5]` as claimed, but `simplify (x = 4)`
produces the equality term `x = 4` (the intersection `[4,4] ∩ [3,5]` is the
single point 4, which triggers the single-point rewrite), and
`simplify (x ≤ᵤ 2)` produces no simplification (`intersect` returns the
crossed interval `[3,2]` instead of reporting the intersection empty). -/
theorem scenarioD_actual :
    findT (top stD) x8 = some ⟨3, 5, 8⟩ ∧
    (simplify stD (Term.eq x8 (Term.num 4 8))).1 = some (Term.eq x8 (Term.num 4 8)) ∧
    (simplify stD (Term.ule x8 (Term.num 2 8))).1 = none := by
  decide

/-- Claim C4 (code bug): recording `x = 9` (width 4) on top of the
recorded bound `[5,5]` — an empty set-intersection — does not fail:
`assert_expr` returns with the `VERIFY`d value true and silently stores
the crossed interval `[9,5]`.  Only the full-domain-negation path (last
conjunct) fails as the claim describes. -/
theorem contradiction_silently_recorded :
    findT (top st45) x4 = some ⟨5, 5, 4⟩ ∧
    (assert_expr st45 (Term.eq x4 (Term.num 9 4)) false).1 = true ∧
    findT (top (assert_expr st45 (Term.eq x4 (Term.num 9 4)) false).2) x4
      = some ⟨9, 5, 4⟩ ∧
    (assert_expr initState (Term.ule (Term.num 0 8) x8) true).1 = false := by
  decide

/-- Claim C5 (counterexample): recording the hypothesis `x ≤ᵤ 5` via
`assert_expr` raises the reported scope level from 0 to 1 even though no
`push` was issued by the caller, because `add_bound` performs an internal
`push()`. -/
theorem scope_level_changed_by_assert :
    scope_level initState = 0 ∧
    scope_level (assert_expr initState (Term.ule x8 (Term.num 5 8)) false).2 = 1 := by
  decide

/-- `add_bound` always pushes exactly one table: its resulting scope stack
is some table consed onto the caller's stack. -/
theorem add_bound_scopes (s : State) (t : Term) (b : interval) :
    ∃ tb, (add_bound s t b).2.scopes = tb :: s.scopes := by
  unfold add_bound
  dsimp only
  cases hf : findT (top (push s)) t with
  | none => exact ⟨_, rfl⟩
  | some r =>
    dsimp only
    cases hi : intersect r b with
    | none => exact ⟨_, rfl⟩
    | some r2 => exact ⟨_, rfl⟩

/-- Claim C5 (amended): the reported scope level equals the number of
tables minus one; `push` raises it by one, `pop n` (with `n` at most the
current level) lowers it by `n`, `simplify` leaves it unchanged, and —
unlike what the claim states — `assert_expr` raises it by one whenever it
records a recognized bound, because `add_bound` begins with an internal
`push()`. -/
theorem scope_level_accounting :
    ∀ (s : State) (t : Term) (sgn : Bool) (n : Nat),
    s.scopes ≠ [] → n ≤ scope_level s →
    scope_level (push s) = scope_level s + 1 ∧
    scope_level (pop s n) = scope_level s - n ∧
    scope_level (assert_expr s t sgn).2 = scope_level s + assertPushCount t sgn ∧
    scope_level (simplify s t).2 = scope_level s := by
  intro s t sgn n hne _hn
  have hlen : 1 ≤ s.scopes.length := by
    cases hs : s.scopes with
    | nil => exact absurd hs hne
    | cons a l => simp [hs]
  have hab : ∀ (b : interval) (t1 : Term),
      scope_level (add_bound s t1 b).2 = scope_level s + 1 := by
    intro b t1
    obtain ⟨tb, htb⟩ := add_bound_scopes s t1 b
    unfold scope_level
    rw [htb]
    simp only [List.length_cons]
    omega
  refine ⟨?_, ?_, ?_, ?_⟩
  · unfold scope_level push
    simp only [List.length_cons]
    omega
  · unfold scope_level pop
    simp only [List.length_drop]
    omega
  · cases hb : is_bound t with
    | none => simp [assert_expr, assertPushCount, hb]
    | some p =>
      obtain ⟨t1, b⟩ := p
      cases sgn with
      | false =>
        simp only [assert_expr, assertPushCount, hb, Bool.false_eq_true, if_neg,
          ite_false]
        exact hab b t1
      | true =>
        cases hn : negate b with
        | none => simp [assert_expr, assertPushCount, hb, hn]
        | some b2 =>
          simp only [assert_expr, assertPushCount, hb, hn, ite_true]
          exact hab b2 t1
  · cases hb : is_bound t with
    | none => simp [simplify, hb]
    | some p =>
      obtain ⟨t1, b⟩ := p
      cases hf : findT (top s) t1 with
      | none => simp [simplify, hb, hf]
      | some ctx =>
        cases hi : intersect b ctx with
        | none => simp [simplify, hb, hf, hi]
        | some intr =>
          simp only [simplify, hb, hf, hi]
          split_ifs <;> rfl

/-- Witness for `scope_level_accounting` at a concrete state, term and
depth. -/
theorem scope_level_accounting_witness :
    (initState.scopes ≠ [] ∧ 0 ≤ scope_level initState) ∧
    (scope_level (push initState) = scope_level initState + 1 ∧
     scope_level (pop initState 0) = scope_level initState - 0 ∧
     scope_level (assert_expr initState (Term.ule x8 (Term.num 5 8)) false).2
       = scope_level initState + assertPushCount (Term.ule x8 (Term.num 5 8)) false ∧
     scope_level (simplify initState (Term.ule x8 (Term.num 5 8))).2
       = scope_level initState) :=
  ⟨⟨by decide, by decide⟩,
    scope_level_accounting initState (Term.ule x8 (Term.num 5 8)) false 0
      (by decide) (by decide)⟩

/-- Claim C8: after `push` (enter_scope) followed by recording a bound —
whether through `assert_expr` on an arbitrary hypothesis term or directly
through `add_bound` — a `pop 1` (leave_scopes(1)) brings the innermost
table back to exactly the table that was innermost before the `push`, so
every lookup returns what it returned before. -/
theorem scope_restore :
    ∀ (s : State) (t k : Term) (sgn : Bool) (i : interval),
    top (pop (assert_expr (push s) t sgn).2 1) = top s ∧
    findT (top (pop (assert_expr (push s) t sgn).2 1)) k = findT (top s) k ∧
    top (pop (add_bound (push s) k i).2 1) = top s := by
  intro s t k sgn i
  have habtop : ∀ (t1 : Term) (b : interval),
      top (pop (add_bound (push s) t1 b).2 1) = top s := by
    intro t1 b
    obtain ⟨tb, htb⟩ := add_bound_scopes (push s) t1 b
    unfold top pop
    rw [htb]
    rfl
  have hid : top (pop (push s) 1) = top s := by
    unfold top pop push
    rfl
  have h1 : top (pop (assert_expr (push s) t sgn).2 1) = top s := by
    cases hb : is_bound t with
    | none =>
      simp only [assert_expr, hb]
      exact hid
    | some p =>
      obtain ⟨t1, b⟩ := p
      cases sgn with
      | false =>
        simp only [assert_expr, hb, Bool.false_eq_true, ite_false]
        exact habtop t1 b
      | true =>
        cases hn : negate b with
        | none =>
          simp only [assert_expr, hb, hn, ite_true]
          exact hid
        | some b2 =>
          simp only [assert_expr, hb, hn, ite_true]
          exact habtop t1 b2
  exact ⟨h1, by rw [h1], habtop k i⟩

/-- Claim C10: `simplify` is a pure query — it returns the state it was
given, so the scope stack, the reported scope level, every table and every
recorded bound are unchanged whether or not a rewrite is produced. -/
theorem simplify_pure :
    ∀ (s : State) (t : Term),
    (simplify s t).2 = s ∧
    scope_level (simplify s t).2 = scope_level s ∧
    top (simplify s t).2 = top s ∧
    (∀ k : Term, findT (top (simplify s t).2) k = findT (top s) k) := by
  intro s t
  have h2 : (simplify s t).2 = s := by
    cases hb : is_bound t with
    | none => simp [simplify, hb]
    | some p =>
      obtain ⟨t1, b⟩ := p
      cases hf : findT (top s) t1 with
      | none => simp [simplify, hb, hf]
      | some ctx =>
        cases hi : intersect b ctx with
        | none => simp [simplify, hb, hf, hi]
        | some intr =>
          simp only [simplify, hb, hf, hi]
          split_ifs <;> rfl
  exact ⟨h2, by rw [h2], by rw [h2], fun k => by rw [h2]⟩

/-- Claim C7: `negate` yields no result exactly when its argument is full;
otherwise it yields `[h+1, uMaxInt sz]` when `l = 0`, `[0, l-1]` when
`h = uMaxInt sz`, and `[h+1, l-1]` otherwise; concretely at width 8,
`negate [0,5] = [6,255]`, `negate [250,255] = [0,249]`, and
`negate [10,20] = [21,9]`, a wrapped interval. -/
theorem negate_spec :
    ∀ a : interval,
    (negate a = none ↔ a.is_full) ∧
    negate a = (if a.is_full then none
      else if a.l = 0 then some ⟨a.h + 1, uMaxInt a.sz, a.sz⟩
      else if a.h = uMaxInt a.sz then some ⟨0, a.l - 1, a.sz⟩
      else some ⟨a.h + 1, a.l - 1, a.sz⟩) ∧
    (negate ⟨0, 5, 8⟩ = some ⟨6, 255, 8⟩ ∧
     negate ⟨250, 255, 8⟩ = some ⟨0, 249, 8⟩ ∧
     negate ⟨10, 20, 8⟩ = some ⟨21, 9, 8⟩ ∧
     (⟨21, 9, 8⟩ : interval).is_wrapped) := by
  intro a
  refine ⟨?_, rfl, by decide⟩
  unfold negate
  split_ifs <;> simp_all

theorem two_pow_facts (sz : Nat) (hsz : 1 ≤ sz) :
    (0 : Int) < 2 ^ (sz - 1) ∧ (2 : Int) ^ sz = 2 ^ (sz - 1) * 2 := by
  refine ⟨pow_pos (by norm_num) _, ?_⟩
  rw [← pow_succ]
  congr 1
  omega

theorem intersect_invariant (a b r : interval) (ha : a.invariant) (hb : b.invariant)
    (hsz : a.sz = b.sz) (hr : intersect a b = some r) : r.invariant := by
  have hU : uMaxInt a.sz = uMaxInt b.sz := by rw [hsz]
  unfold interval.invariant at ha hb ⊢
  unfold intersect at hr
  unfold interval.is_full interval.is_wrapped at hr
  split_ifs at hr <;>
    simp only [Option.some.injEq, reduceCtorEq] at hr <;>
    (try subst hr) <;>
    simp_all

theorem negate_invariant (d c : interval) (hd : d.invariant)
    (hc : negate d = some c) : c.invariant := by
  have hM := uMaxInt_nonneg d.sz
  unfold interval.invariant at hd ⊢
  unfold negate at hc
  unfold interval.is_full at hc
  split_ifs at hc <;>
    simp only [Option.some.injEq, reduceCtorEq] at hc <;>
    (try subst hc) <;>
    simp_all <;>
    omega

theorem isNum_ranges (u : Term) (n : Int) (sz : Nat) (hu : isNum u = some (n, sz))
    (hl : litOk u = true) : 0 ≤ n ∧ n ≤ uMaxInt sz ∧ 1 ≤ sz := by
  cases u <;> simp [Term.isNum] at hu
  obtain ⟨rfl, rfl⟩ := hu
  simpa [Term.litOk, and_assoc] using hl

theorem invariant_of_shapes (n : Int) (sz : Nat) (hn0 : 0 ≤ n)
    (hn1 : n ≤ uMaxInt sz) (hsz : 1 ≤ sz) :
    (interval.mk n (uMaxInt sz) sz).invariant ∧ (interval.mk 0 n sz).invariant ∧
    (interval.mk n (2 ^ (sz - 1) - 1) sz).invariant ∧
    (interval.mk (2 ^ (sz - 1)) n sz).invariant ∧ (interval.mk n n sz).invariant := by
  have hM := uMaxInt_nonneg sz
  obtain ⟨hp1, hp2⟩ := two_pow_facts sz hsz
  unfold interval.invariant uMaxInt at *
  dsimp only
  omega

theorem is_bound_invariant (e v : Term) (w : interval) (hl : litOk e = true)
    (hb : is_bound e = some (v, w)) : w.invariant := by
  cases e with
  | ule lhs rhs =>
    have hlit := hl
    simp only [Term.litOk, Bool.and_eq_true] at hlit
    dsimp only [is_bound] at hb
    cases hnl : isNum lhs with
    | some p =>
      obtain ⟨n, sz⟩ := p
      simp only [hnl, Option.some.injEq, Prod.mk.injEq] at hb
      obtain ⟨-, hw⟩ := hb
      obtain ⟨h0, h1, h2⟩ := isNum_ranges lhs n sz hnl hlit.1
      exact hw ▸ (invariant_of_shapes n sz h0 h1 h2).1
    | none =>
      simp only [hnl] at hb
      cases hnr : isNum rhs with
      | some p =>
        obtain ⟨n, sz⟩ := p
        simp only [hnr, Option.some.injEq, Prod.mk.injEq] at hb
        obtain ⟨-, hw⟩ := hb
        obtain ⟨h0, h1, h2⟩ := isNum_ranges rhs n sz hnr hlit.2
        exact hw ▸ (invariant_of_shapes n sz h0 h1 h2).2.1
      | none => simp [hnr] at hb
  | sle lhs rhs =>
    have hlit := hl
    simp only [Term.litOk, Bool.and_eq_true] at hlit
    dsimp only [is_bound] at hb
    cases hnl : isNum lhs with
    | some p =>
      obtain ⟨n, sz⟩ := p
      simp only [hnl, Option.some.injEq, Prod.mk.injEq] at hb
      obtain ⟨-, hw⟩ := hb
      obtain ⟨h0, h1, h2⟩ := isNum_ranges lhs n sz hnl hlit.1
      exact hw ▸ (invariant_of_shapes n sz h0 h1 h2).2.2.1
    | none =>
      simp only [hnl] at hb
      cases hnr : isNum rhs with
      | some p =>
        obtain ⟨n, sz⟩ := p
        simp only [hnr, Option.some.injEq, Prod.mk.injEq] at hb
        obtain ⟨-, hw⟩ := hb
        obtain ⟨h0, h1, h2⟩ := isNum_ranges rhs n sz hnr hlit.2
        exact hw ▸ (invariant_of_shapes n sz h0 h1 h2).2.2.2.1
      | none => simp [hnr] at hb
  | eq lhs rhs =>
    have hlit := hl
    simp only [Term.litOk, Bool.and_eq_true] at hlit
    dsimp only [is_bound] at hb
    cases hnl : isNum lhs with
    | some p =>
      obtain ⟨n, sz⟩ := p
      simp only [hnl, Option.some.injEq, Prod.mk.injEq] at hb
      obtain ⟨-, hw⟩ := hb
      obtain ⟨h0, h1, h2⟩ := isNum_ranges lhs n sz hnl hlit.1
      exact hw ▸ (invariant_of_shapes n sz h0 h1 h2).2.2.2.2
    | none =>
      simp only [hnl] at hb
      cases hnr : isNum rhs with
      | some p =>
        obtain ⟨n, sz⟩ := p
        simp only [hnr, Option.some.injEq, Prod.mk.injEq] at hb
        obtain ⟨-, hw⟩ := hb
        obtain ⟨h0, h1, h2⟩ := isNum_ranges rhs n sz hnr hlit.2
        exact hw ▸ (invariant_of_shapes n sz h0 h1 h2).2.2.2.2
      | none => simp [hnr] at hb
  | var idx sz => simp [is_bound] at hb
  | num n sz => simp [is_bound] at hb
  | tt => simp [is_bound] at hb
  | ff => simp [is_bound] at hb

/-- Claim C9: every interval the component constructs satisfies the bounds
invariant `0 ≤ l ≤ uMaxInt sz ∧ 0 ≤ h ≤ uMaxInt sz`: `intersect` on two
invariant intervals of equal width, `negate` on an invariant interval, and
`is_bound` extraction from a term whose literals are in range for their
(positive) widths all produce invariant intervals. -/
theorem invariant_preserved :
    ∀ (a b d r c w : interval) (t v : Term),
    a.invariant → b.invariant → a.sz = b.sz → d.invariant → litOk t = true →
    intersect a b = some r → negate d = some c → is_bound t = some (v, w) →
    r.invariant ∧ c.invariant ∧ w.invariant := by
  intro a b d r c w t v ha hb hsz hd hlit hint hneg hbound
  exact ⟨intersect_invariant a b r ha hb hsz hint,
    negate_invariant d c hd hneg,
    is_bound_invariant t v w hlit hbound⟩

/-- Witness for `invariant_preserved` at concrete intervals and a concrete
term. -/
theorem invariant_preserved_witness :
    ((⟨0, 5, 8⟩ : interval).invariant ∧ (⟨3, 7, 8⟩ : interval).invariant ∧
     (⟨0, 5, 8⟩ : interval).sz = (⟨3, 7, 8⟩ : interval).sz ∧
     (⟨0, 5, 8⟩ : interval).invariant ∧
     litOk (Term.ule x8 (Term.num 5 8)) = true ∧
     intersect ⟨0, 5, 8⟩ ⟨3, 7, 8⟩ = some ⟨3, 5, 8⟩ ∧
     negate ⟨0, 5, 8⟩ = some ⟨6, 255, 8⟩ ∧
     is_bound (Term.ule x8 (Term.num 5 8)) = some (x8, ⟨0, 5, 8⟩)) ∧
    ((⟨3, 5, 8⟩ : interval).invariant ∧ (⟨6, 255, 8⟩ : interval).invariant ∧
     (⟨0, 5, 8⟩ : interval).invariant) :=
  ⟨⟨by decide, by decide, rfl, by decide, by decide, by decide, by decide, by decide⟩,
    invariant_preserved ⟨0, 5, 8⟩ ⟨3, 7, 8⟩ ⟨0, 5, 8⟩ ⟨3, 5, 8⟩ ⟨6, 255, 8⟩ ⟨0, 5, 8⟩
      (Term.ule x8 (Term.num 5 8)) x8
      (by decide) (by decide) rfl (by decide) (by decide) (by decide) (by decide)
      (by decide)⟩

theorem memI_iff (a : interval) (x : Int) :
    memI a x ↔ ((a.l ≤ a.h ∧ a.l ≤ x ∧ x ≤ a.h) ∨
      (a.h < a.l ∧ ((0 ≤ x ∧ x ≤ a.h) ∨ (a.l ≤ x ∧ x ≤ uMaxInt a.sz)))) := by
  unfold interval.memI
  split_ifs with h <;> omega

theorem implies_true_iff (a b : interval) :
    implies a b = true ↔
      (b.is_full ∨ (¬ b.is_full ∧ ¬ a.is_full ∧
        ((a.is_wrapped ∧ b.is_wrapped ∧ a.h ≤ b.h ∧ b.l ≤ a.l) ∨
         (¬ a.is_wrapped ∧ b.is_wrapped ∧ (a.h ≤ b.h ∨ b.l ≤ a.l)) ∨
         (¬ a.is_wrapped ∧ ¬ b.is_wrapped ∧ b.l ≤ a.l ∧ a.h ≤ b.h)))) := by
  unfold implies
  split_ifs with h1 h2 h3 h4
  all_goals simp_all [decide_eq_true_eq]
  all_goals tauto

/-- Claim C6 (amended): for invariant intervals of equal width, provided
`b` is not a wrapped encoding of the full domain (`b.l ≠ b.h + 1`),
`implies a b` is true exactly when every value in `a`'s residue set lies
in `b`'s residue set.  (Without the proviso only the forward direction
holds: see the counterexample, where `b = [1,0]` at width 1 denotes the
full domain but `implies` answers false.) -/
theorem implies_iff_subset :
    ∀ (a b : interval), a.invariant → b.invariant → a.sz = b.sz → b.l ≠ b.h + 1 →
    (implies a b = true ↔ ∀ x : Int, memI a x → memI b x) := by
  intro a b ha hb hsz hp
  unfold interval.invariant at ha hb
  obtain ⟨ha1, ha2, ha3, ha4⟩ := ha
  obtain ⟨hb1, hb2, hb3, hb4⟩ := hb
  have hU : uMaxInt a.sz = uMaxInt b.sz := by rw [hsz]
  have hMa := uMaxInt_nonneg a.sz
  have hMb := uMaxInt_nonneg b.sz
  rw [implies_true_iff]
  unfold interval.is_full interval.is_wrapped
  constructor
  · intro h x hx
    rw [memI_iff] at hx ⊢
    omega
  · intro hsub
    have H0 := hsub 0
    have HM := hsub (uMaxInt a.sz)
    have Hal := hsub a.l
    have Hah := hsub a.h
    have Hb1 := hsub (b.h + 1)
    have Hb2 := hsub (b.l - 1)
    simp only [memI_iff] at H0 HM Hal Hah Hb1 Hb2
    omega

/-- Claim C6 (counterexample): at width 1 with `a = [0,1]` (full) and
`b = [1,0]` (a wrapped encoding of the same full domain), every value of
`a`'s set is in `b`'s set, yet `implies a b` is false — so the claimed
equivalence fails as stated. -/
theorem implies_not_complete :
    ¬ (implies ⟨0, 1, 1⟩ ⟨1, 0, 1⟩ = true ↔
        ∀ x : Int, memI ⟨0, 1, 1⟩ x → memI ⟨1, 0, 1⟩ x) := by
  intro h
  have hsub : ∀ x : Int, memI ⟨0, 1, 1⟩ x → memI ⟨1, 0, 1⟩ x := by
    intro x hx
    simp only [interval.memI, uMaxInt] at hx ⊢
    norm_num at hx ⊢
    omega
  have hc := h.mpr hsub
  revert hc
  decide

/-- Witness for `implies_iff_subset` at concrete intervals of width 3. -/
theorem implies_iff_subset_witness :
    ((⟨1, 2, 3⟩ : interval).invariant ∧ (⟨0, 4, 3⟩ : interval).invariant ∧
     (⟨1, 2, 3⟩ : interval).sz = (⟨0, 4, 3⟩ : interval).sz ∧
     (⟨0, 4, 3⟩ : interval).l ≠ (⟨0, 4, 3⟩ : interval).h + 1) ∧
    (implies ⟨1, 2, 3⟩ ⟨0, 4, 3⟩ = true ↔
      ∀ x : Int, memI ⟨1, 2, 3⟩ x → memI ⟨0, 4, 3⟩ x) :=
  ⟨⟨by decide, by decide, rfl, by decide⟩,
    implies_iff_subset ⟨1, 2, 3⟩ ⟨0, 4, 3⟩ (by decide) (by decide) rfl (by decide)⟩

end BvBounds
